import Mathlib

/-!
Verification of the Choreo timeline and pose-resolution engine.

This file shallowly embeds the data model and operations of the
choreography editor (the `useChoreo` state module, the picture service
and the audio transport) in Lean 4 and proves properties about them.
Numbers are modelled as rationals (`ℚ`); JavaScript objects with
optional or loosely typed fields are modelled with `Option`; dynamic
records (dancer position maps) are modelled as association lists keyed
by strings.  JavaScript's falsy-or operator `x || d` on numbers is
modelled by `jsOr` (falls back exactly when the number is `0`; `NaN`
and non-numbers are unrepresentable in `ℚ` and are modelled as absent
`Option` fields where the source checks `Number.isFinite`).
-/

namespace Choreo

/-- JS `x || d` for numbers: falls back exactly on `0` (falsy). -/
def jsOr (v fallback : ℚ) : ℚ := if v = 0 then fallback else v

/-- `clamp(v, lo, hi) = Math.max(lo, Math.min(hi, v))` from `useChoreo.tsx`. -/
def clampQ (v lo hi : ℚ) : ℚ := max lo (min hi v)

/-- `lerp(a, b, t) = a + (b - a) * t` from `useChoreo.tsx`. -/
def lerp (a b t : ℚ) : ℚ := a + (b - a) * t

/-- 2-D stage position (`Vec2` in `useChoreo.tsx`). -/
structure Vec2 where
  x : ℚ
  y : ℚ
deriving DecidableEq, Repr

/-- A dancer-position record `Record<string, Vec2>`: association list,
first binding for a key wins on lookup (JS object keys are unique). -/
abbrev PosMap := List (String × Vec2)

/-- JS object property lookup on a `PosMap`. -/
def lookupPos : PosMap → String → Option Vec2
  | [], _ => none
  | (k, v) :: rest, id => if k = id then some v else lookupPos rest id

/-- `PictureKind = "main" | "move"`. -/
inductive PictureKind where
  | main : PictureKind
  | move : PictureKind
deriving DecidableEq, Repr

/-- `Picture` from `useChoreo.tsx` (with the legacy `toNextSec?` field). -/
structure Picture where
  id : String
  name : String
  kind : PictureKind
  positions : PosMap
  holdSec : ℚ
  moveSec : ℚ
  toNextSec : Option ℚ
deriving DecidableEq, Repr

instance : Inhabited Picture :=
  ⟨⟨"", "", PictureKind.main, [], 0, 0, none⟩⟩

/-- `Sequence` from `useChoreo.tsx`. -/
structure Sequence where
  id : String
  name : String
  createdAt : ℚ
  pictures : List Picture
  musicStartSec : Option ℚ
  musicEndSec : Option ℚ
deriving DecidableEq, Repr

instance : Inhabited Sequence :=
  ⟨⟨"", "", 0, [], none, none⟩⟩

/-- Effective hold of a picture: `Math.max(0, p.holdSec || 0)`,
as used in `picturesDurationSec`, `getPictureStartSec`, `getPoseAtSec`
and `addPictureAtTime`. -/
def effHold (p : Picture) : ℚ := max 0 (jsOr p.holdSec 0)

/-- Effective move of a picture: `Math.max(0.001, p.moveSec || 2)`,
as used in `picturesDurationSec`, `getPictureStartSec`, `getPoseAtSec`
and the segment search of `addPictureAtTime`. -/
def effMove (p : Picture) : ℚ := max (1/1000) (jsOr p.moveSec 2)

/-- One timeline segment of a (non-last) picture. -/
def segLen (p : Picture) : ℚ := effHold p + effMove p

/-- `picturesDurationSec` from `useChoreo.tsx`: `0` for fewer than two
pictures, else the sum of `effHold + effMove` over all pictures except
the last. -/
def picturesDurationSec (seq : Sequence) : ℚ :=
  if seq.pictures.length < 2 then 0
  else (seq.pictures.dropLast.map segLen).sum

/-- JS `Set` insertion order: append a key unless already present. -/
def insertKey (l : List String) (k : String) : List String :=
  if k ∈ l then l else l ++ [k]

/-- `new Set([...Object.keys(a), ...Object.keys(b)])` from the MOVE
window of `getPoseAtSec`. -/
def unionKeys (a b : PosMap) : List String :=
  (a.map Prod.fst ++ b.map Prod.fst).foldl insertKey []

/-- `a.positions[id] ?? b.positions[id]` from the MOVE window of
`getPoseAtSec`.  The final default `⟨0,0⟩` is unreachable: the id is
always drawn from the key union of the two maps. -/
def endpointPos (a b : PosMap) (id : String) : Vec2 :=
  ((lookupPos a id).or (lookupPos b id)).getD ⟨0, 0⟩

/-- Interpolated vector `{ x: lerp(pa.x, pb.x, k), y: lerp(pa.y, pb.y, k) }`. -/
def lerpVec (pa pb : Vec2) (k : ℚ) : Vec2 :=
  ⟨lerp pa.x pb.x k, lerp pa.y pb.y k⟩

/-- The interpolated pose built in the MOVE window of `getPoseAtSec`:
for every id in the key union, lerp between the two endpoint positions
(a dancer missing on one side falls back to the other side). -/
def movePose (a b : PosMap) (k : ℚ) : PosMap :=
  (unionKeys a b).map fun id => (id, lerpVec (endpointPos a b id) (endpointPos b a id) k)

/-- The scanning loop of `getPoseAtSec`: walk adjacent picture pairs
accumulating elapsed time; HOLD window returns the earlier picture's
positions verbatim, MOVE window interpolates; past the last pair the
last picture's positions are returned. -/
def poseLoop (tt : ℚ) : ℚ → List Picture → PosMap
  | _, [] => []
  | _, [p] => p.positions
  | acc, a :: b :: rest =>
    if acc ≤ tt ∧ tt ≤ acc + effHold a then a.positions
    else if acc + effHold a ≤ tt ∧ tt ≤ acc + effHold a + effMove a then
      movePose a.positions b.positions
        (clampQ ((tt - (acc + effHold a)) / effMove a) 0 1)
    else poseLoop tt (acc + effHold a + effMove a) (b :: rest)

/-- `getPoseAtSec` from `useChoreo.tsx`, as a function of the active
sequence: `null` for zero pictures, the sole picture's positions for a
single picture, else clamp the time into `[0, picturesDurationSec]`
and scan the pairs. -/
def getPoseAtSec (seq : Sequence) (sec : ℚ) : Option PosMap :=
  match seq.pictures with
  | [] => none
  | [p] => some p.positions
  | a :: b :: rest =>
    let total := picturesDurationSec seq
    if total ≤ 0 then some a.positions
    else some (poseLoop (clampQ sec 0 total) 0 (a :: b :: rest))

/-- One backward gap-filling step of `resolvePoseForPicture`
(`pictureService.ts`): add each entry of `pos` whose id is not yet
present in `out` (coordinates in `ℚ` are always finite, so the
`Number.isFinite` guards of the source always pass). -/
def resolveStep (out : PosMap) (pos : PosMap) : PosMap :=
  pos.foldl (fun acc kv => if (lookupPos acc kv.1).isSome then acc else acc ++ [kv]) out

/-- `resolvePoseForPicture` from `pictureService.ts`: walk backwards
from `pictureIndex` to `0`, filling missing dancer positions from
earlier pictures (nearest-defined wins). -/
def resolvePoseForPicture (pictures : List Picture) (pictureIndex : ℕ) : PosMap :=
  if pictureIndex < pictures.length then
    ((pictures.take (pictureIndex + 1)).reverse).foldl
      (fun out p => resolveStep out p.positions) []
  else []

/-! ## Normalization, versions, export / import (`useChoreo.tsx`) -/

/-- Raw (untyped JSON) picture, as consumed by `normalizeSequence`.
`none` models an absent field, a `null`/`undefined` value, or (for the
numeric fields, which the source guards with `Number.isFinite`) a
non-finite value. -/
structure RawPicture where
  id : Option String
  name : Option String
  kind : Option String
  positions : Option PosMap
  holdSec : Option ℚ
  moveSec : Option ℚ
  toNextSec : Option ℚ
deriving DecidableEq, Repr

/-- Raw (untyped JSON) sequence, as consumed by `normalizeSequence`. -/
structure RawSequence where
  id : Option String
  name : Option String
  createdAt : Option ℚ
  pictures : Option (List RawPicture)
  musicStartSec : Option ℚ
  musicEndSec : Option ℚ
deriving DecidableEq, Repr

/-- The non-deterministic environment of `normalizeSequence`: the
values produced by `uid("pic")` (one per picture index), by
`uid("seq")`, and by `Date.now()`. -/
structure NormEnv where
  picId : ℕ → String
  seqId : String
  now : ℚ

/-- JS `.map((p, i) => f(i, p))`, keeping the index explicit. -/
def mapWithIndex (f : ℕ → α → β) : ℕ → List α → List β
  | _, [] => []
  | i, a :: l => f i a :: mapWithIndex f (i + 1) l

/-- The per-picture body of `normalizeSequence`: backfill `kind`,
`holdSec` (1.0 for main, 0 for move), `moveSec` (falling back to the
legacy `toNextSec`, then 2.0), default id/name, and set the legacy
`toNextSec` output field to the normalized `moveSec`. -/
def normalizePicture (env : NormEnv) (i : ℕ) (p : RawPicture) : Picture :=
  let kind : PictureKind := if p.kind = some "move" then .move else .main
  let holdSec := p.holdSec.getD (if kind = .main then 1 else 0)
  let moveSec := p.moveSec.getD (p.toNextSec.getD 2)
  { id := p.id.getD (env.picId i)
    name := p.name.getD ("Picture " ++ toString (i + 1))
    kind := kind
    positions := p.positions.getD []
    holdSec := holdSec
    moveSec := moveSec
    toNextSec := some moveSec }

/-- `normalizeSequence` from `useChoreo.tsx`. -/
def normalizeSequence (env : NormEnv) (seq : RawSequence) : Sequence :=
  { id := seq.id.getD env.seqId
    name := seq.name.getD "Sequence"
    createdAt := seq.createdAt.getD env.now
    pictures := mapWithIndex (normalizePicture env) 0 (seq.pictures.getD [])
    musicStartSec := seq.musicStartSec
    musicEndSec := seq.musicEndSec }

/-- A bound music snippet (`MusicClip` in `useChoreo.tsx`). -/
structure MusicClip where
  startSec : ℚ
  endSec : ℚ
deriving DecidableEq, Repr

/-- `normalizeClip` from `useChoreo.tsx`: a clip is effective only if
both bounds are finite numbers and `end > start`. -/
def normalizeClip (seq : Sequence) : Option MusicClip :=
  match seq.musicStartSec, seq.musicEndSec with
  | some a, some b => if b > a then some ⟨a, b⟩ else none
  | _, _ => none

/-- A version snapshot (`ChoreoVersion.snapshot`). -/
structure Snapshot where
  sequences : List Sequence
  activeSequenceId : Option String
deriving DecidableEq

/-- `ChoreoVersion` from `useChoreo.tsx`. -/
structure ChoreoVersion where
  id : String
  name : String
  createdAt : ℚ
  snapshot : Snapshot
deriving DecidableEq

/-- The slice of provider state that the export/import, clip and play
operations read and write: `sequences`, `activeSequenceId`,
`versions`, `loadToken`. -/
structure ChoreoState where
  sequences : List Sequence
  activeSequenceId : Option String
  versions : List ChoreoVersion
  loadToken : ℕ
deriving DecidableEq

/-- The export envelope built by `buildExport` (typed v2 shape). -/
structure ChoreoExport where
  schema : String
  exportedAt : ℚ
  app : String
  sequences : List Sequence
  activeSequenceId : Option String
  versions : Option (List ChoreoVersion)
deriving DecidableEq

/-- `buildExport` from `useChoreo.tsx` (`Date.now()` passed in as `now`;
`structuredClone` is the identity in a pure embedding). -/
def buildExport (now : ℚ) (st : ChoreoState) (includeVersions : Bool) : ChoreoExport :=
  { schema := "choreo-export-v2"
    exportedAt := now
    app := "Choreo"
    sequences := st.sequences
    activeSequenceId := st.activeSequenceId
    versions := if includeVersions then some st.versions else none }

/-- Raw (untyped JSON) input of `importExport`.  `schema = none` models
an absent or non-string schema tag (also covering `!data`);
`sequences = none` models an absent or non-array `sequences` field;
`activeSequenceId = some s` models `typeof … === "string"`;
`versions = some vs` models `Array.isArray(data.versions)` (the source
casts the array wholesale without normalizing it). -/
structure RawExport where
  schema : Option String
  sequences : Option (List RawSequence)
  activeSequenceId : Option String
  versions : Option (List ChoreoVersion)

/-- Reinjection of a typed picture into the raw shape (a typed object
fed back to the dynamically-typed importer, as in
`importExport(buildExport(...))`). -/
def Picture.toRaw (p : Picture) : RawPicture :=
  { id := some p.id
    name := some p.name
    kind := some (match p.kind with | .main => "main" | .move => "move")
    positions := some p.positions
    holdSec := some p.holdSec
    moveSec := some p.moveSec
    toNextSec := p.toNextSec }

/-- Reinjection of a typed sequence into the raw shape. -/
def Sequence.toRaw (s : Sequence) : RawSequence :=
  { id := some s.id
    name := some s.name
    createdAt := some s.createdAt
    pictures := some (s.pictures.map Picture.toRaw)
    musicStartSec := s.musicStartSec
    musicEndSec := s.musicEndSec }

/-- The JSON produced by `buildExport`, as seen by `importExport`. -/
def exportToRaw (e : ChoreoExport) : RawExport :=
  { schema := some e.schema
    sequences := some (e.sequences.map Sequence.toRaw)
    activeSequenceId := e.activeSequenceId
    versions := e.versions }

/-- `importExport` from `useChoreo.tsx`: validate the schema tag and
the `sequences` array (returning the untouched state plus a
user-visible error message otherwise), normalize every sequence, pick
the next active id (the payload's declared id when it is a string,
else the first sequence), optionally replace the version history, and
bump `loadToken`.  `envs i` supplies the `uid`/`Date.now` environment
used while normalizing the `i`-th sequence. -/
def importExport (envs : ℕ → NormEnv) (data : RawExport) (st : ChoreoState) :
    ChoreoState × Option String :=
  if data.schema ≠ some "choreo-export-v1" ∧ data.schema ≠ some "choreo-export-v2" then
    (st, some "Invalid file format (expected choreo-export-v1 or choreo-export-v2).")
  else
    match data.sequences with
    | none => (st, some "Invalid export: sequences missing.")
    | some rawSeqs =>
      let seqs := mapWithIndex (fun i rs => normalizeSequence (envs i) rs) 0 rawSeqs
      let nextActive :=
        match data.activeSequenceId with
        | some a => some a
        | none => match seqs with | [] => none | s :: _ => some s.id
      let versions := match data.versions with | some vs => vs | none => st.versions
      ({ sequences := seqs
         activeSequenceId := nextActive
         versions := versions
         loadToken := st.loadToken + 1 }, none)

/-! ## Clip binding, active sequence, play (`useChoreo.tsx`) -/

/-- `setSequenceMusicClip` (its effect on the sequence list): reorder
the two finite bounds with min/max and store them on the target
sequence.  Both arguments are `ℚ`, so the `Number.isFinite` early
return of the source never fires. -/
def setSequenceMusicClip (sequences : List Sequence) (sequenceId : String)
    (startSec endSec : ℚ) : List Sequence :=
  let lo := min startSec endSec
  let hi := max startSec endSec
  sequences.map fun s =>
    if s.id = sequenceId then { s with musicStartSec := some lo, musicEndSec := some hi } else s

/-- `clearSequenceMusicClip` (its effect on the sequence list). -/
def clearSequenceMusicClip (sequences : List Sequence) (sequenceId : String) : List Sequence :=
  sequences.map fun s =>
    if s.id = sequenceId then { s with musicStartSec := none, musicEndSec := none } else s

/-- `getActiveSequence` from `useChoreo.tsx`. -/
def getActiveSequence (st : ChoreoState) : Option Sequence :=
  match st.activeSequenceId with
  | none => none
  | some id => st.sequences.find? fun s => s.id = id

/-- `getActiveMusicClip` from `useChoreo.tsx`. -/
def getActiveMusicClip (st : ChoreoState) : Option MusicClip :=
  (getActiveSequence st).bind normalizeClip

/-- The `durationSec` memo from `useChoreo.tsx`: the clip length when a
clip is bound, else the pictures-only duration of the active sequence
(0 when there is none). -/
def durationSecView (st : ChoreoState) : ℚ :=
  match getActiveMusicClip st with
  | some c => max 0 (c.endSec - c.startSec)
  | none =>
    match getActiveSequence st with
    | some seq => picturesDurationSec seq
    | none => 0

/-- Number of pictures in the active sequence (0 when there is none);
`!seq || seq.pictures.length < 2` in `play`. -/
def activePictureCount (st : ChoreoState) : ℕ :=
  match getActiveSequence st with
  | some seq => seq.pictures.length
  | none => 0

/-- `play` from `useChoreo.tsx`, as the predicate "the transport's
`play()` is invoked": refuse on fewer than two pictures, on
non-positive `durationSec`, and on a bound clip without loaded audio
(`transportDurationSec` is the transport's `durationSec`). -/
def playStarts (st : ChoreoState) (transportDurationSec : ℚ) : Bool :=
  match getActiveSequence st with
  | none => false
  | some seq =>
    if seq.pictures.length < 2 then false
    else if durationSecView st ≤ 0 then false
    else if (getActiveMusicClip st).isSome ∧ ¬ (transportDurationSec > 0) then false
    else true

/-! ## `addPictureAtTime` (`useChoreo.tsx`) -/

/-- The segment-search loop of `addPictureAtTime`: scan all pictures
accumulating `effHold + effMove`; return the first index whose window
`[acc, acc + seg)` contains `targetSec` together with that window's
start, or (when the target lies past every window) the last index
together with the full accumulated sum. -/
def findInsertAux (target : ℚ) : List Picture → ℕ → ℚ → ℕ × ℚ
  | [], i, acc => (i - 1, acc)
  | p :: rest, i, acc =>
    let nextAcc := acc + segLen p
    if target < nextAcc then (i, acc) else findInsertAux target rest (i + 1) nextAcc

/-- Entry point of the segment search (`insertAfter`/`acc` in the source). -/
def findInsert (pics : List Picture) (target : ℚ) : ℕ × ℚ :=
  findInsertAux target pics 0 0

/-- `l.splice(i, 0, x)`: insert `x` at index `i`. -/
def insertAtIdx (l : List Picture) (i : ℕ) (x : Picture) : List Picture :=
  l.take i ++ x :: l.drop i

/-- The fresh picture built by `addPicture`/`addPictureAtTime`:
default hold 1.0 for main and 0 for move, default move 2.0, name
defaulting to "Picture". -/
def newPicture (freshPicId : String) (positions : PosMap) (name : String)
    (kind : Option PictureKind) : Picture :=
  let k : PictureKind := if kind = some .move then .move else .main
  let picName := name.trim
  { id := freshPicId
    name := if picName = "" then "Picture" else picName
    kind := k
    positions := positions
    holdSec := if k = .main then 1 else 0
    moveSec := 2
    toNextSec := some 2 }

/-- The duration-splitting adjustment of `addPictureAtTime` applied to
the preceding picture: when `0 < desiredDelta < oldHold + oldMove`,
set `hold := min(oldHold, max(0, desiredDelta - 0.2))` and
`move := max(0.2, desiredDelta - hold)` (keeping `toNextSec` in sync),
else leave the picture unchanged. -/
def adjustPrevPicture (prevPic : Picture) (desiredDelta : ℚ) : Picture :=
  let minMove : ℚ := 1/5
  let oldHold := max 0 (jsOr prevPic.holdSec 0)
  let oldMove := max minMove (jsOr prevPic.moveSec 2)
  let oldTotal := oldHold + oldMove
  if 0 < desiredDelta ∧ desiredDelta < oldTotal then
    let newHold := min oldHold (max 0 (desiredDelta - minMove))
    let newMove := max minMove (desiredDelta - newHold)
    { prevPic with holdSec := newHold, moveSec := newMove, toNextSec := some newMove }
  else prevPic

/-- `addPictureAtTime` from `useChoreo.tsx` (its effect on the
sequence list).  `freshSeqId`/`now` feed the auto-created sequence,
`freshPicId` the new picture.  Locate the segment containing
`atSec`, best-effort shrink the preceding picture so the new picture
arrives at `atSec`, and insert the new picture right after it. -/
def addPictureAtTime (freshSeqId freshPicId : String) (now : ℚ)
    (sequences : List Sequence) (activeSequenceId : Option String)
    (positions : PosMap) (atSec : ℚ) (name : String) (kind : Option PictureKind) :
    List Sequence :=
  let targetSec := max 0 atSec
  let base :=
    if sequences.isEmpty then
      [{ id := freshSeqId, name := "Sequence 1", createdAt := now,
         pictures := [], musicStartSec := none, musicEndSec := none }]
    else sequences
  let activeId := activeSequenceId.or (base.head?.map (·.id))
  match activeId with
  | none => base
  | some aid =>
    match base.findIdx? (fun s => s.id = aid) with
    | none => base
    | some sIdx =>
      let seq := (base.get? sIdx).getD
        { id := "", name := "", createdAt := 0, pictures := [],
          musicStartSec := none, musicEndSec := none }
      let pic := newPicture freshPicId positions name kind
      if seq.pictures.isEmpty then
        base.set sIdx { seq with pictures := [pic] }
      else
        let found := findInsert seq.pictures targetSec
        let insertAfter := found.1
        let prevStart := found.2
        let desiredDelta := max 0 (targetSec - prevStart)
        let prevPic := (seq.pictures.get? insertAfter).getD default
        let adjusted := adjustPrevPicture prevPic desiredDelta
        let newPics := insertAtIdx (seq.pictures.set insertAfter adjusted) (insertAfter + 1) pic
        base.set sIdx { seq with pictures := newPics }

/-! ## Audio transport (`TransportProvider`) -/

/-- The transport-clock state of `TransportProvider`: loaded buffer
duration (`none` = no audio), playing flag, paused offset, AudioContext
time at which playback started, displayed playhead (`currentSec`), and
the loop region. -/
structure Transport where
  bufferDuration : Option ℚ
  isPlaying : Bool
  offsetSec : ℚ
  startedAtCtxTime : ℚ
  currentSec : ℚ
  loopEnabled : Bool
  loopA : Option ℚ
  loopB : Option ℚ
deriving DecidableEq, Repr

/-- The guard `le && la != null && lb != null && lb > la` used by
`seek`, `startAt` and the RAF tick: the active loop window, if any. -/
def loopWindow (tr : Transport) : Option (ℚ × ℚ) :=
  if tr.loopEnabled then
    match tr.loopA, tr.loopB with
    | some la, some lb => if lb > la then some (la, lb) else none
    | _, _ => none
  else none

/-- JS truncating rounding (the `trunc` underlying the `%` operator). -/
def ratTrunc (q : ℚ) : ℤ := if 0 ≤ q then Int.floor q else Int.ceil q

/-- JS remainder `x % y` on numbers (sign of the dividend). -/
def jsMod (x y : ℚ) : ℚ := x - y * (ratTrunc (x / y) : ℚ)

/-- `startAt` from `TransportProvider` (its effect on the clock state;
audio-node wiring is external): clamp the start position into the
buffer, snap into the loop window when outside of it, record offset
and context time, mark playing. -/
def startAt (ctxNow : ℚ) (tr : Transport) (sec : ℚ) : Transport :=
  match tr.bufferDuration with
  | none => tr
  | some dur =>
    let startPos := max 0 (min dur sec)
    let startPos :=
      match loopWindow tr with
      | some lw => if startPos < lw.1 ∨ startPos > lw.2 then lw.1 else startPos
      | none => startPos
    { tr with offsetSec := startPos, startedAtCtxTime := ctxNow, isPlaying := true }

/-- `seek` from `TransportProvider`: no-op without audio; clamp into
`[0, duration]`; when the clamped position lies strictly outside an
active loop window, disable looping; then restart playback at the
position (when playing) or park the offset and playhead there (when
paused). -/
def Transport.seek (ctxNow : ℚ) (tr : Transport) (sec : ℚ) : Transport :=
  match tr.bufferDuration with
  | none => tr
  | some dur =>
    let clamped := max 0 (min dur sec)
    let tr1 :=
      match loopWindow tr with
      | some lw =>
        if clamped < lw.1 ∨ clamped > lw.2 then { tr with loopEnabled := false } else tr
      | none => tr
    if tr1.isPlaying then startAt ctxNow tr1 clamped
    else { tr1 with offsetSec := clamped, currentSec := clamped }

/-- One animation-frame tick of `startRaf` at AudioContext time
`ctxNow`: sample the clock, clamp into the buffer, wrap into the loop
window (`pos >= lb` wraps modulo the loop length; `pos < la` wraps
from below), and publish `currentSec`.  (`bufferRef.current?.duration
?? durationSec ?? 0` collapses to the buffer duration, which the
`durationSec` state mirrors.) -/
def rafTick (ctxNow : ℚ) (tr : Transport) : Transport :=
  if ¬ tr.isPlaying then tr
  else
    let pos := (ctxNow - tr.startedAtCtxTime) + tr.offsetSec
    let dur := tr.bufferDuration.getD 0
    let pos := max 0 (min dur pos)
    let pos :=
      match loopWindow tr with
      | some lw =>
        let loopLen := lw.2 - lw.1
        let pos1 := if pos ≥ lw.2 then lw.1 + jsMod (pos - lw.1) loopLen else pos
        if pos1 < lw.1 then lw.1 + jsMod (jsMod (pos1 - lw.1) loopLen + loopLen) loopLen
        else pos1
      | none => pos
    { tr with currentSec := pos }

/-! ## Lookup and key-union lemmas -/

lemma lookupPos_isSome_iff (m : PosMap) (id : String) :
    (lookupPos m id).isSome ↔ id ∈ m.map Prod.fst := by
  induction m with
  | nil => simp [lookupPos]
  | cons kv rest ih =>
    obtain ⟨k, v⟩ := kv
    by_cases h : k = id
    · subst h; simp [lookupPos]
    · simp [lookupPos, h, ih, Ne.symm h]

lemma mem_insertKey (l : List String) (k x : String) :
    x ∈ insertKey l k ↔ x ∈ l ∨ x = k := by
  unfold insertKey
  by_cases hk : k ∈ l
  · simp only [if_pos hk]
    constructor
    · exact fun h => Or.inl h
    · rintro (h | rfl) <;> assumption
  · simp [if_neg hk]

lemma mem_foldl_insertKey (l : List String) (init : List String) (x : String) :
    x ∈ l.foldl insertKey init ↔ x ∈ init ∨ x ∈ l := by
  induction l generalizing init with
  | nil => simp
  | cons k rest ih =>
    simp only [List.foldl_cons, ih, mem_insertKey, List.mem_cons]
    tauto

lemma mem_unionKeys (a b : PosMap) (x : String) :
    x ∈ unionKeys a b ↔ x ∈ a.map Prod.fst ∨ x ∈ b.map Prod.fst := by
  unfold unionKeys
  rw [mem_foldl_insertKey]
  simp

lemma lookupPos_map_self (ids : List String) (f : String → Vec2) (id : String)
    (h : id ∈ ids) :
    lookupPos (ids.map fun i => (i, f i)) id = some (f id) := by
  induction ids with
  | nil => cases h
  | cons k rest ih =>
    rcases List.mem_cons.mp h with rfl | hmem
    · simp [lookupPos]
    · by_cases hk : k = id
      · subst hk; simp [lookupPos]
      · simp only [List.map_cons, lookupPos, if_neg hk]
        exact ih hmem

lemma lookupPos_movePose (a b : PosMap) (k : ℚ) (id : String)
    (h : (lookupPos a id).isSome ∨ (lookupPos b id).isSome) :
    lookupPos (movePose a b k) id
      = some (lerpVec (endpointPos a b id) (endpointPos b a id) k) := by
  have hmem : id ∈ unionKeys a b := by
    rw [mem_unionKeys]
    rcases h with h | h
    · exact Or.inl ((lookupPos_isSome_iff a id).mp h)
    · exact Or.inr ((lookupPos_isSome_iff b id).mp h)
  exact lookupPos_map_self _ _ _ hmem

/-! ## C1: the hold/move interpolation scenario -/

/-- The C1 scenario sequence: `P1{hold=1,move=2}`, `P2{hold=0,move=2}`,
`P3` (durations of the last picture are irrelevant). -/
def seqC1 (q1 q2 q3 : PosMap) (h3 m3 : ℚ) : Sequence :=
  { id := "s1", name := "S", createdAt := 0,
    pictures :=
      [ ⟨"p1", "P1", .main, q1, 1, 2, none⟩,
        ⟨"p2", "P2", .main, q2, 0, 2, none⟩,
        ⟨"p3", "P3", .main, q3, h3, m3, none⟩ ],
    musicStartSec := none, musicEndSec := none }

/-- C1: for the active sequence `P1{holdSec=1, moveSec=2}`,
`P2{holdSec=0, moveSec=2}`, `P3`, the pictures-only duration is 5
seconds; `getPoseAtSec` returns `P1`'s positions at `t = 0.5`; at
`t = 2.0` (move window `[1,3]`, `k = 0.5`) it returns, for every dancer
present in `P1` or `P2`, the point halfway between that dancer's `P1`
and `P2` positions (a dancer missing on one side uses the other side's
position for both endpoints); and at `t = 4.5` (window `[3,5]`,
`k = 0.75`) the point at fraction `0.75` between the `P2` and `P3`
positions. -/
theorem c1_pose_scenario (q1 q2 q3 : PosMap) (h3 m3 : ℚ) (d e : String)
    (hd : (lookupPos q1 d).isSome ∨ (lookupPos q2 d).isSome)
    (he : (lookupPos q2 e).isSome ∨ (lookupPos q3 e).isSome) :
    picturesDurationSec (seqC1 q1 q2 q3 h3 m3) = 5
    ∧ getPoseAtSec (seqC1 q1 q2 q3 h3 m3) (1/2) = some q1
    ∧ getPoseAtSec (seqC1 q1 q2 q3 h3 m3) 2 = some (movePose q1 q2 (1/2))
    ∧ lookupPos (movePose q1 q2 (1/2)) d
        = some (lerpVec (endpointPos q1 q2 d) (endpointPos q2 q1 d) (1/2))
    ∧ getPoseAtSec (seqC1 q1 q2 q3 h3 m3) (9/2) = some (movePose q2 q3 (3/4))
    ∧ lookupPos (movePose q2 q3 (3/4)) e
        = some (lerpVec (endpointPos q2 q3 e) (endpointPos q3 q2 e) (3/4)) := by
  refine ⟨?_, ?_, ?_, lookupPos_movePose q1 q2 (1/2) d hd, ?_,
    lookupPos_movePose q2 q3 (3/4) e he⟩
  · norm_num [picturesDurationSec, seqC1, segLen, effHold, effMove, jsOr]
  · norm_num [getPoseAtSec, picturesDurationSec, seqC1, segLen, effHold, effMove, jsOr,
      clampQ, poseLoop]
  · norm_num [getPoseAtSec, picturesDurationSec, seqC1, segLen, effHold, effMove, jsOr,
      clampQ, poseLoop]
  · norm_num [getPoseAtSec, picturesDurationSec, seqC1, segLen, effHold, effMove, jsOr,
      clampQ, poseLoop]

/-- Witness for C1 at a concrete input: one dancer moving from `(0,0)`
to `(2,4)` between `P1` and `P2` and resting at `(6,0)` in `P3`. -/
theorem c1_pose_scenario_witness :
    getPoseAtSec (seqC1 [("d", ⟨0,0⟩)] [("d", ⟨2,4⟩)] [("d", ⟨6,0⟩)] 1 2) 2
      = some (movePose [("d", ⟨0,0⟩)] [("d", ⟨2,4⟩)] (1/2))
    ∧ lookupPos (movePose [("d", ⟨0,0⟩)] [("d", ⟨2,4⟩)] (1/2)) "d"
        = some (lerpVec (endpointPos [("d", ⟨0,0⟩)] [("d", ⟨2,4⟩)] "d")
            (endpointPos [("d", ⟨2,4⟩)] [("d", ⟨0,0⟩)] "d") (1/2)) := by
  have h := c1_pose_scenario [("d", ⟨0,0⟩)] [("d", ⟨2,4⟩)] [("d", ⟨6,0⟩)] 1 2 "d" "d"
    (by left; decide) (by left; decide)
  exact ⟨h.2.2.1, h.2.2.2.1⟩

/-! ## C2: hold windows return the raw (non-gap-filled) positions -/

lemma effHold_nonneg (p : Picture) : 0 ≤ effHold p := le_max_left _ _

lemma effMove_pos (p : Picture) : 0 < effMove p :=
  lt_of_lt_of_le (by norm_num) (le_max_left _ _)

lemma segLen_pos (p : Picture) : 0 < segLen p :=
  add_pos_of_nonneg_of_pos (effHold_nonneg p) (effMove_pos p)

lemma sum_segLen_nonneg (l : List Picture) : 0 ≤ (l.map segLen).sum := by
  induction l with
  | nil => simp
  | cons p rest ih =>
    simp only [List.map_cons, List.sum_cons]
    have := segLen_pos p
    linarith

lemma sum_segLen_pos (l : List Picture) (h : l ≠ []) : 0 < (l.map segLen).sum := by
  cases l with
  | nil => exact absurd rfl h
  | cons p rest =>
    simp only [List.map_cons, List.sum_cons]
    have h1 := segLen_pos p
    have h2 := sum_segLen_nonneg rest
    linarith

/-- A time beyond the whole prefix makes the `getPoseAtSec` loop skip it. -/
lemma poseLoop_skip (pre : List Picture) (k : Picture) (l : List Picture) (tt acc : ℚ)
    (h : acc + (pre.map segLen).sum < tt) :
    poseLoop tt acc (pre ++ k :: l) = poseLoop tt (acc + (pre.map segLen).sum) (k :: l) := by
  induction pre generalizing acc with
  | nil => simp
  | cons a pre ih =>
    obtain ⟨c, t, hct⟩ : ∃ c t, pre ++ k :: l = c :: t := by
      cases pre <;> exact ⟨_, _, rfl⟩
    have hsum : 0 ≤ (pre.map segLen).sum := sum_segLen_nonneg pre
    have hmv := effMove_pos a
    have ha : acc + segLen a + (pre.map segLen).sum < tt := by
      simp only [List.map_cons, List.sum_cons] at h
      linarith
    have hseg : acc + effHold a + effMove a < tt := by
      simp only [segLen] at ha
      linarith
    have hc1 : ¬ (acc ≤ tt ∧ tt ≤ acc + effHold a) := by
      rintro ⟨-, h2⟩
      linarith
    have hc2 : ¬ (acc + effHold a ≤ tt ∧ tt ≤ acc + effHold a + effMove a) := by
      rintro ⟨-, h2⟩
      linarith
    have step : poseLoop tt acc (a :: c :: t) = poseLoop tt (acc + effHold a + effMove a) (c :: t) := by
      rw [poseLoop, if_neg hc1, if_neg hc2]
    calc poseLoop tt acc ((a :: pre) ++ k :: l)
        = poseLoop tt acc (a :: c :: t) := by rw [List.cons_append, hct]
      _ = poseLoop tt (acc + effHold a + effMove a) (c :: t) := step
      _ = poseLoop tt (acc + segLen a) (pre ++ k :: l) := by
          rw [hct, segLen, add_assoc]
      _ = poseLoop tt (acc + segLen a + (pre.map segLen).sum) (k :: l) := ih _ ha
      _ = poseLoop tt (acc + ((a :: pre).map segLen).sum) (k :: l) := by
          simp only [List.map_cons, List.sum_cons]
          ring_nf

lemma exists_cons_cons_of_two_le (l : List Picture) (h : 2 ≤ l.length) :
    ∃ x y t, l = x :: y :: t := by
  cases l with
  | nil => simp at h
  | cons x l =>
    cases l with
    | nil => simp at h
    | cons y t => exact ⟨x, y, t, rfl⟩

/-- For two or more pictures and positive total duration,
`getPoseAtSec` clamps and scans. -/
lemma getPoseAtSec_of_two (seq : Sequence) (hlen : 2 ≤ seq.pictures.length)
    (hpos : 0 < picturesDurationSec seq) (sec : ℚ) :
    getPoseAtSec seq sec
      = some (poseLoop (clampQ sec 0 (picturesDurationSec seq)) 0 seq.pictures) := by
  obtain ⟨x, y, l, hxyl⟩ := exists_cons_cons_of_two_le seq.pictures hlen
  simp only [getPoseAtSec, hxyl]
  rw [if_neg (not_le.mpr hpos)]

/-- C2 amended: inside a picture's hold window (strictly after the
segment start, or from the very start for the first picture),
`getPoseAtSec` returns that picture's **raw** `positions` map verbatim
— it performs no backward gap-filling; a single-picture sequence
likewise yields the raw positions of its only picture at every time. -/
theorem c2_holdWindow_raw_pose (pre rest : List Picture) (p q : Picture)
    (sid sn : String) (created : ℚ) (ms me : Option ℚ) (t u : ℚ)
    (hlo : (pre.map segLen).sum ≤ t)
    (hstrict : pre = [] ∨ (pre.map segLen).sum < t)
    (hhi : t ≤ (pre.map segLen).sum + effHold p) :
    getPoseAtSec ⟨sid, sn, created, pre ++ p :: q :: rest, ms, me⟩ t = some p.positions
    ∧ getPoseAtSec ⟨sid, sn, created, [p], ms, me⟩ u = some p.positions := by
  constructor
  · have hs0 : 0 ≤ (pre.map segLen).sum := sum_segLen_nonneg pre
    have ht0 : 0 ≤ t := le_trans hs0 hlo
    have hmv := effMove_pos p
    have hhold := effHold_nonneg p
    -- total duration of the sequence
    have hdrop : (pre ++ p :: q :: rest).dropLast = pre ++ p :: (q :: rest).dropLast := by
      rw [List.dropLast_append_cons, List.dropLast_cons₂]
    have hlen : ¬ ((pre ++ p :: q :: rest).length < 2) := by
      simp only [List.length_append, List.length_cons]
      omega
    have htotal : picturesDurationSec ⟨sid, sn, created, pre ++ p :: q :: rest, ms, me⟩
        = (pre.map segLen).sum + segLen p + (((q :: rest).dropLast).map segLen).sum := by
      simp only [picturesDurationSec, if_neg hlen, hdrop]
      simp [List.sum_append, add_assoc]
    set total := picturesDurationSec ⟨sid, sn, created, pre ++ p :: q :: rest, ms, me⟩ with htd
    have hrest0 : 0 ≤ (((q :: rest).dropLast).map segLen).sum := sum_segLen_nonneg _
    have httot : t ≤ total := by
      rw [htotal]
      simp only [segLen]
      linarith
    have htpos : 0 < total := by
      rw [htotal]
      have := segLen_pos p
      linarith
    have hclamp : clampQ t 0 total = t := by
      simp only [clampQ]
      rw [min_eq_right httot, max_eq_right ht0]
    have hpose : getPoseAtSec ⟨sid, sn, created, pre ++ p :: q :: rest, ms, me⟩ t
        = some (poseLoop t 0 (pre ++ p :: q :: rest)) := by
      rw [getPoseAtSec_of_two _ (by simpa using by omega) htpos, ← htd, hclamp]
    rw [hpose]
    have hin : (pre.map segLen).sum ≤ t ∧ t ≤ (pre.map segLen).sum + effHold p := ⟨hlo, hhi⟩
    rcases hstrict with rfl | hstrict
    · simp only [List.map_nil, List.sum_nil] at hin
      rw [List.nil_append, poseLoop, if_pos (by constructor <;> [exact hin.1; linarith [hin.2]])]
    · rw [poseLoop_skip pre p (q :: rest) t 0 (by linarith), poseLoop,
        if_pos (by constructor <;> [linarith [hin.1]; linarith [hin.2]])]
  · rfl

/-- Witness for C2's amended theorem at a concrete input. -/
theorem c2_holdWindow_raw_pose_witness :
    getPoseAtSec ⟨"s", "n", 0,
        [⟨"a", "A", .main, [("d", ⟨1,2⟩)], 1, 2, none⟩,
         ⟨"b", "B", .main, [], 1, 2, none⟩], none, none⟩ (1/2)
      = some [("d", ⟨1,2⟩)] := by
  have h := c2_holdWindow_raw_pose [] []
    ⟨"a", "A", .main, [("d", ⟨1,2⟩)], 1, 2, none⟩
    ⟨"b", "B", .main, [], 1, 2, none⟩
    "s" "n" 0 none none (1/2) 0
    (by norm_num)
    (Or.inl rfl)
    (by norm_num [effHold, jsOr])
  exact h.1

/-- The C2 counterexample sequence: dancer `d1` is positioned only in
`P1`; `P2`'s hold window covers `t = 3.5`. -/
def seqC2 : Sequence :=
  { id := "s2", name := "S", createdAt := 0,
    pictures :=
      [ ⟨"p1", "P1", .main, [("d1", ⟨0,0⟩)], 1, 2, none⟩,
        ⟨"p2", "P2", .main, [("d2", ⟨1,1⟩)], 1, 2, none⟩,
        ⟨"p3", "P3", .main, [("d2", ⟨2,2⟩)], 0, 2, none⟩ ],
    musicStartSec := none, musicEndSec := none }

/-- C2 counterexample: at `t = 3.5`, inside `P2`'s hold window,
`getPoseAtSec` returns `P2`'s raw positions; dancer `d1`, positioned
only in the earlier picture `P1`, has **no** position — even though
the backward gap-filled pose (`resolvePoseForPicture`) does contain
`d1`.  This falsifies the claim that hold windows return the fully
gap-filled pose. -/
theorem c2_holdWindow_not_gapFilled_cex :
    getPoseAtSec seqC2 (7/2) = some [("d2", ⟨1,1⟩)]
    ∧ lookupPos ((getPoseAtSec seqC2 (7/2)).getD []) "d1" = none
    ∧ lookupPos (resolvePoseForPicture seqC2.pictures 1) "d1" = some ⟨0,0⟩ := by
  refine ⟨?_, ?_, ?_⟩ <;>
    (norm_num [getPoseAtSec, picturesDurationSec, seqC2, segLen, effHold, effMove, jsOr,
      clampQ, poseLoop, resolvePoseForPicture, resolveStep, lookupPos]
     <;> decide)

/-! ## C3: the move-duration fallback -/

/-- The C3 counterexample sequence: the first picture has
`holdSec = 0` and `moveSec = 0`. -/
def seqC3 : Sequence :=
  { id := "s3", name := "S", createdAt := 0,
    pictures :=
      [ ⟨"a", "A", .main, [], 0, 0, none⟩,
        ⟨"b", "B", .main, [], 1, 2, none⟩ ],
    musicStartSec := none, musicEndSec := none }

/-- C3 counterexample: a picture with `moveSec = 0` does **not** get
the ε floor `0.001` — the JS expression `p.moveSec || 2` first replaces
the falsy `0` by the default `2`, so the segment contributes
`max(0,0) + max(0.001, 2) = 2` seconds, not `0.001`. -/
theorem c3_moveSec_zero_fallback_cex :
    picturesDurationSec seqC3 = 2 ∧ picturesDurationSec seqC3 ≠ 1/1000 := by
  constructor <;>
    norm_num [picturesDurationSec, seqC3, segLen, effHold, effMove, jsOr]

/-- C3 amended: only a picture whose `moveSec` is strictly negative is
floored at ε = `0.001` — then the pictures-only duration counts
`max(0,holdSec) + 0.001` for its segment and the move-window
interpolation divides by `0.001` (at `hold + 0.0005` the fraction is
`k = 0.5`); a `moveSec` of exactly `0` instead falls back to the
legacy default `2.0` (JS `||`); the effective move duration is
positive in every case, so no division by zero occurs. -/
theorem c3_moveSec_floor_amended (a b : Picture) (sid sn : String) (created : ℚ)
    (ms me : Option ℚ) (hneg : a.moveSec < 0) :
    effMove a = 1/1000
    ∧ picturesDurationSec ⟨sid, sn, created, [a, b], ms, me⟩ = effHold a + 1/1000
    ∧ getPoseAtSec ⟨sid, sn, created, [a, b], ms, me⟩ (effHold a + 1/2000)
        = some (movePose a.positions b.positions (1/2))
    ∧ (∀ p : Picture, 0 < effMove p)
    ∧ (∀ p : Picture, p.moveSec = 0 → effMove p = 2) := by
  have hh := effHold_nonneg a
  have hEff : effMove a = 1/1000 := by
    rw [effMove, jsOr, if_neg (ne_of_lt hneg)]
    exact max_eq_left (by linarith)
  have hdur : picturesDurationSec ⟨sid, sn, created, [a, b], ms, me⟩
      = effHold a + 1/1000 := by
    simp [picturesDurationSec, segLen, hEff]
  refine ⟨hEff, hdur, ?_, effMove_pos, ?_⟩
  · simp only [getPoseAtSec]
    rw [hdur, if_neg (by linarith), clampQ,
      min_eq_right (by linarith), max_eq_right (by linarith), poseLoop,
      if_neg (by rintro ⟨-, h2⟩; linarith),
      if_pos ⟨by linarith, by rw [hEff]; linarith⟩]
    rw [hEff]
    norm_num
    rw [clampQ, min_eq_right (by norm_num), max_eq_right (by norm_num)]
  · intro p hp
    rw [effMove, jsOr, if_pos hp]
    norm_num

/-- Witness for C3's amended theorem at a concrete picture with
`moveSec = -1`. -/
theorem c3_moveSec_floor_amended_witness :
    picturesDurationSec ⟨"s", "n", 0,
        [⟨"a", "A", .main, [], 1, -1, none⟩, ⟨"b", "B", .main, [], 1, 2, none⟩],
        none, none⟩
      = effHold ⟨"a", "A", .main, [], 1, -1, none⟩ + 1/1000 := by
  exact (c3_moveSec_floor_amended ⟨"a", "A", .main, [], 1, -1, none⟩
    ⟨"b", "B", .main, [], 1, 2, none⟩ "s" "n" 0 none none (by norm_num)).2.1


/-! ## C4: `addPictureAtTime` duration splitting -/

/-- Evaluation of `addPictureAtTime` for a two-picture active sequence
when `atSec` falls strictly inside the first segment: the preceding
picture is shrunk to `hold = min(oldHold, max(0, atSec - 0.2))`,
`move = max(0.2, atSec - hold)` and the new picture is inserted right
after it. -/
lemma addPictureAtTime_two_pics (A B : Picture) (sid sn fs fp nm : String)
    (created now atSec : ℚ) (ms me : Option ℚ) (pos : PosMap) (kd : Option PictureKind)
    (h0 : 0 < atSec) (h1 : atSec < segLen A) :
    addPictureAtTime fs fp now [⟨sid, sn, created, [A, B], ms, me⟩] (some sid) pos atSec nm kd
      = [⟨sid, sn, created,
          [{ A with
              holdSec := min (max 0 (jsOr A.holdSec 0)) (max 0 (atSec - 1/5)),
              moveSec := max (1/5)
                (atSec - min (max 0 (jsOr A.holdSec 0)) (max 0 (atSec - 1/5))),
              toNextSec := some (max (1/5)
                (atSec - min (max 0 (jsOr A.holdSec 0)) (max 0 (atSec - 1/5)))) },
           newPicture fp pos nm kd, B], ms, me⟩] := by
  have htarget : max 0 atSec = atSec := max_eq_right (le_of_lt h0)
  have hcond : 0 < atSec
      ∧ atSec < max 0 (jsOr A.holdSec 0) + max (1/5) (jsOr A.moveSec 2) := by
    refine ⟨h0, lt_of_lt_of_le h1 ?_⟩
    unfold segLen effHold effMove
    exact add_le_add_left (max_le_max (by norm_num) (le_refl _)) _
  have hadj : adjustPrevPicture A atSec
      = { A with
          holdSec := min (max 0 (jsOr A.holdSec 0)) (max 0 (atSec - 1/5)),
          moveSec := max (1/5)
            (atSec - min (max 0 (jsOr A.holdSec 0)) (max 0 (atSec - 1/5))),
          toNextSec := some (max (1/5)
            (atSec - min (max 0 (jsOr A.holdSec 0)) (max 0 (atSec - 1/5)))) } := by
    rw [adjustPrevPicture, if_pos hcond]
  have hfind : findInsert [A, B] atSec = (0, 0) := by
    rw [findInsert, findInsertAux, if_pos (by rw [zero_add]; exact h1)]
  simp only [addPictureAtTime, htarget]
  simp [List.isEmpty, Option.or, hfind, hadj, insertAtIdx, htarget]

/-- C4 counterexample: inserting at `atSec = 0.5` into the
`hold=1, move=2` segment leaves the preceding picture with
`holdSec = 0.3` and `moveSec = 0.2` — not `holdSec = 0` and
`moveSec = 0.5` as claimed.  The code reserves the `0.2` move floor
first and gives the remainder to the hold. -/
theorem c4_addPictureAtTime_cex :
    (addPictureAtTime "ns" "np" 0
        [⟨"s", "Seq", 0,
          [⟨"a", "A", .main, [], 1, 2, none⟩, ⟨"b", "B", .main, [], 1, 2, none⟩],
          none, none⟩]
        (some "s") [] (1/2) "" none).headI.pictures.headI.holdSec = 3/10
    ∧ (addPictureAtTime "ns" "np" 0
        [⟨"s", "Seq", 0,
          [⟨"a", "A", .main, [], 1, 2, none⟩, ⟨"b", "B", .main, [], 1, 2, none⟩],
          none, none⟩]
        (some "s") [] (1/2) "" none).headI.pictures.headI.moveSec = 1/5
    ∧ ¬ ((addPictureAtTime "ns" "np" 0
        [⟨"s", "Seq", 0,
          [⟨"a", "A", .main, [], 1, 2, none⟩, ⟨"b", "B", .main, [], 1, 2, none⟩],
          none, none⟩]
        (some "s") [] (1/2) "" none).headI.pictures.headI.holdSec = 0) := by
  rw [addPictureAtTime_two_pics
    ⟨"a", "A", .main, [], 1, 2, none⟩ ⟨"b", "B", .main, [], 1, 2, none⟩
    "s" "Seq" "ns" "np" "" 0 0 (1/2) none none [] none
    (by norm_num) (by norm_num [segLen, effHold, effMove, jsOr, max_def])]
  norm_num [jsOr, newPicture, max_def, min_def]

/-- C4 amended: inserting at `atSec` strictly inside the first segment
of a two-picture active sequence shrinks the preceding picture to
`hold = min(oldHold, max(0, atSec - 0.2))` and
`move = max(0.2, atSec - hold)` — the 0.2-second move floor is
allocated **first** and only the remainder (if any) is kept as hold —
and inserts the new picture immediately after it; the new picture's
arrival time `hold + move` equals `atSec` whenever `atSec ≥ 0.2`
(and is floored at `0.2` otherwise). -/
theorem c4_addPictureAtTime_amended (A B : Picture) (sid sn fs fp nm : String)
    (created now atSec : ℚ) (ms me : Option ℚ) (pos : PosMap) (kd : Option PictureKind)
    (h0 : 0 < atSec) (h1 : atSec < segLen A) :
    addPictureAtTime fs fp now [⟨sid, sn, created, [A, B], ms, me⟩] (some sid) pos atSec nm kd
      = [⟨sid, sn, created,
          [{ A with
              holdSec := min (max 0 (jsOr A.holdSec 0)) (max 0 (atSec - 1/5)),
              moveSec := max (1/5)
                (atSec - min (max 0 (jsOr A.holdSec 0)) (max 0 (atSec - 1/5))),
              toNextSec := some (max (1/5)
                (atSec - min (max 0 (jsOr A.holdSec 0)) (max 0 (atSec - 1/5)))) },
           newPicture fp pos nm kd, B], ms, me⟩]
    ∧ min (max 0 (jsOr A.holdSec 0)) (max 0 (atSec - 1/5))
        + max (1/5) (atSec - min (max 0 (jsOr A.holdSec 0)) (max 0 (atSec - 1/5)))
      = max atSec (1/5) := by
  have hold0 : 0 ≤ max 0 (jsOr A.holdSec 0) := le_max_left _ _
  refine ⟨addPictureAtTime_two_pics A B sid sn fs fp nm created now atSec ms me pos kd h0 h1, ?_⟩
  rcases le_or_lt atSec (1/5) with hc | hc
  · rw [max_eq_left (by linarith : atSec - 1/5 ≤ 0), min_eq_right hold0,
      max_eq_right hc]
    norm_num
    linarith
  · rw [max_eq_right (by linarith : (0:ℚ) ≤ atSec - 1/5),
      max_eq_left (le_of_lt hc)]
    rcases le_total (max 0 (jsOr A.holdSec 0)) (atSec - 1/5) with hm | hm
    · rw [min_eq_left hm,
        max_eq_right (show (1:ℚ)/5 ≤ atSec - max 0 (jsOr A.holdSec 0) by linarith)]
      ring
    · rw [min_eq_right hm]
      have harr : atSec - (atSec - 1/5) = 1/5 := by ring
      rw [harr, max_self]
      ring

/-- Witness for C4's amended theorem at the concrete `hold=1,move=2`,
`atSec=0.5` input. -/
theorem c4_addPictureAtTime_amended_witness :
    min (max 0 (jsOr (1:ℚ) 0)) (max 0 ((1/2 : ℚ) - 1/5))
        + max (1/5) ((1/2 : ℚ) - min (max 0 (jsOr (1:ℚ) 0)) (max 0 ((1/2 : ℚ) - 1/5)))
      = max (1/2 : ℚ) (1/5) := by
  exact (c4_addPictureAtTime_amended
    ⟨"a", "A", .main, [], 1, 2, none⟩ ⟨"b", "B", .main, [], 1, 2, none⟩
    "s" "Seq" "ns" "np" "" 0 0 (1/2) none none [] none
    (by norm_num) (by norm_num [segLen, effHold, effMove, jsOr, max_def])).2

/-! ## C5 and C10: normalization round-trip and idempotence -/

lemma normalizePicture_toRaw (env : NormEnv) (i : ℕ) (p : Picture) :
    normalizePicture env i p.toRaw = { p with toNextSec := some p.moveSec } := by
  rcases p with ⟨pid, pname, kind, positionsf, hold, move, tn⟩
  cases kind <;>
    simp [normalizePicture, Picture.toRaw,
      show ("main" : String) ≠ "move" by decide]

lemma mapWithIndex_map (f : ℕ → β → γ) (g : α → β) (i : ℕ) (l : List α) :
    mapWithIndex f i (l.map g) = mapWithIndex (fun j a => f j (g a)) i l := by
  induction l generalizing i with
  | nil => rfl
  | cons a l ih => simp [mapWithIndex, ih]

lemma mapWithIndex_eq_map (f : ℕ → α → β) (h : α → β) (hf : ∀ j a, f j a = h a)
    (i : ℕ) (l : List α) : mapWithIndex f i l = l.map h := by
  induction l generalizing i with
  | nil => rfl
  | cons a l ih => simp [mapWithIndex, hf, ih]

lemma mem_mapWithIndex (f : ℕ → α → β) (i : ℕ) (l : List α) (b : β)
    (hb : b ∈ mapWithIndex f i l) : ∃ j a, a ∈ l ∧ b = f j a := by
  induction l generalizing i with
  | nil => cases hb
  | cons a l ih =>
    rcases List.mem_cons.mp hb with rfl | hmem
    · exact ⟨i, a, List.mem_cons_self a l, rfl⟩
    · obtain ⟨j, a', ha', hb'⟩ := ih (i + 1) hmem
      exact ⟨j, a', List.mem_cons_of_mem a ha', hb'⟩

lemma normalizeSequence_toRaw (env : NormEnv) (s : Sequence) :
    normalizeSequence env s.toRaw
      = { s with pictures := s.pictures.map fun p => { p with toNextSec := some p.moveSec } } := by
  rcases s with ⟨sid, sname, created, pics, ms, me⟩
  simp only [normalizeSequence, Sequence.toRaw, Option.getD_some]
  rw [mapWithIndex_map]
  rw [mapWithIndex_eq_map _ _ (fun j a => normalizePicture_toRaw env j a) 0 pics]

lemma map_toNextSec_fix_id (l : List Picture)
    (h : ∀ p ∈ l, p.toNextSec = some p.moveSec) :
    (l.map fun p => { p with toNextSec := some p.moveSec }) = l := by
  induction l with
  | nil => rfl
  | cons p rest ih =>
    have hp := h p (List.mem_cons_self p rest)
    have hrest := ih fun q hq => h q (List.mem_cons_of_mem p hq)
    rcases p with ⟨pid, pname, kind, positionsf, hold, move, tn⟩
    simp only [List.map_cons, hrest]
    simp_all

/-- C10: `normalizeSequence` is idempotent — re-normalizing the
(re-injected) output of `normalizeSequence` reproduces it exactly,
whatever fresh-id/`Date.now` environments the two runs use; in
particular re-normalizing an already-normalized sequence (as
`restoreVersion` and `importExport` do) changes no field at all. -/
theorem c10_normalizeSequence_idem (e1 e2 : NormEnv) (raw : RawSequence) :
    normalizeSequence e2 (Sequence.toRaw (normalizeSequence e1 raw))
      = normalizeSequence e1 raw := by
  rw [normalizeSequence_toRaw]
  have h : ∀ p ∈ (normalizeSequence e1 raw).pictures, p.toNextSec = some p.moveSec := by
    intro p hp
    simp only [normalizeSequence] at hp
    obtain ⟨j, a, -, rfl⟩ := mem_mapWithIndex _ _ _ _ hp
    rfl
  rw [map_toNextSec_fix_id _ h]

/-- Sameness of two pictures on every field the export round-trip law
speaks about (all fields except the legacy `toNextSec` mirror). -/
def PicSimilar (p q : Picture) : Prop :=
  p.id = q.id ∧ p.name = q.name ∧ p.kind = q.kind ∧ p.positions = q.positions
    ∧ p.holdSec = q.holdSec ∧ p.moveSec = q.moveSec

/-- Sameness of two sequences on ids, names, pictures (in the
`PicSimilar` sense, pointwise and same length) and music clip bounds. -/
def SeqSimilar (s t : Sequence) : Prop :=
  s.id = t.id ∧ s.name = t.name ∧ List.Forall₂ PicSimilar s.pictures t.pictures
    ∧ s.musicStartSec = t.musicStartSec ∧ s.musicEndSec = t.musicEndSec

lemma forall₂_map_self {R : α → α → Prop} (g : α → α) (h : ∀ a, R (g a) a)
    (l : List α) : List.Forall₂ R (l.map g) l := by
  induction l with
  | nil => exact List.Forall₂.nil
  | cons a l ih => exact List.Forall₂.cons (h a) ih

lemma seqSimilar_normalize_toRaw (env : NormEnv) (s : Sequence) :
    SeqSimilar (normalizeSequence env s.toRaw) s := by
  rw [normalizeSequence_toRaw]
  refine ⟨rfl, rfl, ?_, rfl, rfl⟩
  exact forall₂_map_self _ (fun p => ⟨rfl, rfl, rfl, rfl, rfl, rfl⟩) s.pictures

/-- C5: the export round-trip law — `importExport (buildExport true)`
succeeds (no invalid-format error) and reproduces an equivalent
sequence list (same ids, names, picture kinds, dancer positions,
hold/move durations and music clip bounds, sequence for sequence) and
exactly the same version list. -/
theorem c5_export_roundtrip (envs : ℕ → NormEnv) (now : ℚ) (st : ChoreoState) :
    (importExport envs (exportToRaw (buildExport now st true)) st).2 = none
    ∧ List.Forall₂ SeqSimilar
        (importExport envs (exportToRaw (buildExport now st true)) st).1.sequences
        st.sequences
    ∧ (importExport envs (exportToRaw (buildExport now st true)) st).1.versions
        = st.versions := by
  have hval : ¬ ((exportToRaw (buildExport now st true)).schema ≠ some "choreo-export-v1"
      ∧ (exportToRaw (buildExport now st true)).schema ≠ some "choreo-export-v2") := by
    simp [exportToRaw, buildExport]
  simp only [importExport, if_neg hval, exportToRaw, buildExport, if_pos]
  refine ⟨rfl, ?_, rfl⟩
  rw [mapWithIndex_map]
  have : ∀ (l : List Sequence) (i : ℕ),
      List.Forall₂ SeqSimilar
        (mapWithIndex (fun j s => normalizeSequence (envs j) (Sequence.toRaw s)) i l) l := by
    intro l
    induction l with
    | nil => exact fun _ => List.Forall₂.nil
    | cons s l ih =>
      exact fun i => List.Forall₂.cons (seqSimilar_normalize_toRaw (envs i) s) (ih (i + 1))
  exact this st.sequences 0

/-! ## C6: import validation -/

/-- C6: `importExport` rejects any payload whose schema tag is neither
`"choreo-export-v1"` nor `"choreo-export-v2"`, or whose `sequences`
field is not an array, surfacing an error message and leaving the
whole state (sequences, active id, versions, loadToken) unchanged; on
a valid payload it replaces the sequences with their normalizations,
increments `loadToken`, and sets the active sequence to the payload's
declared id when that is a string, else to the first imported
sequence. -/
theorem c6_importExport_validation (envs : ℕ → NormEnv) (data : RawExport)
    (st : ChoreoState) :
    ((data.schema ≠ some "choreo-export-v1" ∧ data.schema ≠ some "choreo-export-v2")
        ∨ data.sequences = none →
      (importExport envs data st).1 = st
        ∧ ((importExport envs data st).2).isSome = true)
    ∧ (∀ rawSeqs, data.sequences = some rawSeqs →
        (data.schema = some "choreo-export-v1" ∨ data.schema = some "choreo-export-v2") →
        (importExport envs data st).2 = none
        ∧ (importExport envs data st).1.sequences
            = mapWithIndex (fun i rs => normalizeSequence (envs i) rs) 0 rawSeqs
        ∧ (importExport envs data st).1.loadToken = st.loadToken + 1
        ∧ (∀ a, data.activeSequenceId = some a →
            (importExport envs data st).1.activeSequenceId = some a)
        ∧ (data.activeSequenceId = none →
            (importExport envs data st).1.activeSequenceId
              = ((importExport envs data st).1.sequences.head?).map (fun s => s.id))) := by
  constructor
  · rintro (hbad | hnone)
    · rw [importExport, if_pos hbad]
      exact ⟨rfl, rfl⟩
    · by_cases hbad : data.schema ≠ some "choreo-export-v1"
          ∧ data.schema ≠ some "choreo-export-v2"
      · rw [importExport, if_pos hbad]
        exact ⟨rfl, rfl⟩
      · simp only [importExport, if_neg hbad, hnone]
        exact ⟨trivial, rfl⟩
  · intro rawSeqs hseqs hschema
    have hbad : ¬ (data.schema ≠ some "choreo-export-v1"
        ∧ data.schema ≠ some "choreo-export-v2") := by
      rcases hschema with h | h <;> simp [h]
    simp only [importExport, if_neg hbad, hseqs]
    refine ⟨trivial, trivial, trivial, ?_, ?_⟩
    · intro a ha
      simp [ha]
    · intro hnone
      simp only [hnone]
      cases mapWithIndex (fun i rs => normalizeSequence (envs i) rs) 0 rawSeqs <;> rfl

/-- Witness for C6: a payload with schema tag `"bogus"` is rejected
without a state change, and a valid empty v2 payload bumps
`loadToken`. -/
theorem c6_importExport_validation_witness :
    (importExport (fun _ => ⟨fun _ => "p", "s", 0⟩)
        ⟨some "bogus", none, none, none⟩ ⟨[], none, [], 0⟩).1 = ⟨[], none, [], 0⟩
    ∧ (importExport (fun _ => ⟨fun _ => "p", "s", 0⟩)
        ⟨some "choreo-export-v2", some [], some "x", none⟩ ⟨[], none, [], 0⟩).1.loadToken
      = 0 + 1 := by
  constructor
  · exact ((c6_importExport_validation (fun _ => ⟨fun _ => "p", "s", 0⟩)
      ⟨some "bogus", none, none, none⟩ ⟨[], none, [], 0⟩).1 (Or.inl (by decide))).1
  · exact ((c6_importExport_validation (fun _ => ⟨fun _ => "p", "s", 0⟩)
      ⟨some "choreo-export-v2", some [], some "x", none⟩ ⟨[], none, [], 0⟩).2
      [] rfl (Or.inr rfl)).2.2.1

/-! ## C7: the music-clip invariant -/

/-- The claimed strict clip invariant: whenever both bounds are set,
the end is strictly greater than the start. -/
def ClipInvariant (s : Sequence) : Prop :=
  ∀ a b, s.musicStartSec = some a → s.musicEndSec = some b → a < b

/-- The invariant the code actually maintains on stored bounds:
`start ≤ end` (equality possible). -/
def ClipOrdered (s : Sequence) : Prop :=
  ∀ a b, s.musicStartSec = some a → s.musicEndSec = some b → a ≤ b

/-- C7 counterexample: `setSequenceMusicClip(seq, 5, 5)` stores
`musicStartSec = musicEndSec = 5` — both bounds set with `end = start`,
violating the claimed strict invariant; the binder neither rejects nor
clears the degenerate binding. -/
theorem c7_clip_invariant_cex :
    (setSequenceMusicClip [⟨"s1", "S", 0, [], none, none⟩] "s1" 5 5).headI.musicStartSec
      = some 5
    ∧ (setSequenceMusicClip [⟨"s1", "S", 0, [], none, none⟩] "s1" 5 5).headI.musicEndSec
      = some 5
    ∧ ¬ ClipInvariant (setSequenceMusicClip [⟨"s1", "S", 0, [], none, none⟩] "s1" 5 5).headI := by
  refine ⟨by simp [setSequenceMusicClip], by simp [setSequenceMusicClip], ?_⟩
  intro h
  have h5 := h 5 5 (by simp [setSequenceMusicClip]) (by simp [setSequenceMusicClip])
  exact lt_irrefl _ h5

/-- C7 amended: the operations maintain only the non-strict ordering
`musicStartSec ≤ musicEndSec` on stored bounds (`setSequenceMusicClip`
reorders its two arguments with min/max and never rejects, so equal
bounds are storable; `clearSequenceMusicClip` unsets both); the strict
invariant holds of every **effective** clip: `normalizeClip` yields a
clip only when `end > start`, and in particular treats equal stored
bounds as unbound (`none`). -/
theorem c7_clip_invariant_amended :
    (∀ (seqs : List Sequence) (sequenceId : String) (x y : ℚ) (s' : Sequence),
        (∀ s ∈ seqs, ClipOrdered s) →
        s' ∈ setSequenceMusicClip seqs sequenceId x y → ClipOrdered s')
    ∧ (∀ (seqs : List Sequence) (sequenceId : String) (s' : Sequence),
        (∀ s ∈ seqs, ClipOrdered s) →
        s' ∈ clearSequenceMusicClip seqs sequenceId → ClipOrdered s')
    ∧ (∀ (s : Sequence) (c : MusicClip), normalizeClip s = some c → c.startSec < c.endSec)
    ∧ (∀ (s : Sequence) (a : ℚ), s.musicStartSec = some a → s.musicEndSec = some a →
        normalizeClip s = none)
    ∧ (∀ (env : NormEnv) (raw : RawSequence),
        (normalizeSequence env raw).musicStartSec = raw.musicStartSec
        ∧ (normalizeSequence env raw).musicEndSec = raw.musicEndSec) := by
  refine ⟨?_, ?_, ?_, ?_, fun env raw => ⟨rfl, rfl⟩⟩
  · intro seqs sequenceId x y s' hall hmem
    obtain ⟨s, hs, rfl⟩ := List.mem_map.mp hmem
    by_cases hid : s.id = sequenceId
    · simp only [if_pos hid]
      intro a b ha hb
      rw [Option.some_inj] at ha hb
      rw [← ha, ← hb]
      exact min_le_max
    · simp only [if_neg hid]
      exact hall s hs
  · intro seqs sequenceId s' hall hmem
    obtain ⟨s, hs, rfl⟩ := List.mem_map.mp hmem
    by_cases hid : s.id = sequenceId
    · simp only [if_pos hid]
      intro a b ha hb
      cases ha
    · simp only [if_neg hid]
      exact hall s hs
  · intro s c h
    rcases hs : s.musicStartSec with _ | a <;> rcases he : s.musicEndSec with _ | b <;>
      simp only [normalizeClip, hs, he] at h <;>
      try exact Option.noConfusion h
    split_ifs at h with hba
    rw [Option.some_inj] at h
    rw [← h]
    exact hba
  · intro s a h1 h2
    simp [normalizeClip, h1, h2]

/-- Witness for C7's amended theorem: the effective clip of a sequence
bound to `[1, 2]` is strict. -/
theorem c7_clip_invariant_amended_witness :
    normalizeClip ⟨"s", "n", 0, [], some 1, some 2⟩ = some ⟨1, 2⟩
    ∧ (MusicClip.mk 1 2).startSec < (MusicClip.mk 1 2).endSec := by
  constructor
  · norm_num [normalizeClip]
  · exact c7_clip_invariant_amended.2.2.1 ⟨"s", "n", 0, [], some 1, some 2⟩ ⟨1, 2⟩
      (by norm_num [normalizeClip])

/-! ## C8: when `play` refuses -/

/-- C8: `play` is a no-op exactly when the active sequence has fewer
than two pictures (counting none as zero), or the effective duration
(`durationSec`: clip length when a clip is bound, else the
pictures-only duration) is non-positive, or a clip is bound while no
audio is loaded on the transport; in every other case the transport's
`play()` is invoked. -/
theorem c8_play_noop_iff (st : ChoreoState) (transportDurationSec : ℚ) :
    playStarts st transportDurationSec = false ↔
      (activePictureCount st < 2
        ∨ durationSecView st ≤ 0
        ∨ ((getActiveMusicClip st).isSome ∧ ¬ (transportDurationSec > 0))) := by
  unfold playStarts activePictureCount
  cases h : getActiveSequence st with
  | none => simp [getActiveMusicClip, h]
  | some seq =>
    by_cases h2 : seq.pictures.length < 2
    · simp [h2]
    · by_cases h3 : durationSecView st ≤ 0
      · simp [h2, h3]
      · by_cases h4 : (getActiveMusicClip st).isSome ∧ ¬ (transportDurationSec > 0)
        · simp [h2, h3, h4]
        · simp [h2, h3, h4]

/-! ## C9: seeking against the loop region -/

lemma jsMod_self (x : ℚ) (hx : x ≠ 0) : jsMod x x = 0 := by
  rw [jsMod, div_self hx, ratTrunc, if_pos (by norm_num : (0:ℚ) ≤ 1), Int.floor_one]
  push_cast
  ring

/-- C9 counterexample: with loop region `[1, 2]` active and audio of
duration 10 loaded, a **paused** seek to exactly `loopEnd = 2` parks
the playhead at `2` (looping stays enabled) — it does not wrap the
playhead to `loopStart = 1`.  The wrap happens only in the
animation-frame tick while playing. -/
theorem c9_seek_paused_cex :
    (Transport.seek 0 ⟨some 10, false, 0, 0, 0, true, some 1, some 2⟩ 2).currentSec = 2
    ∧ (Transport.seek 0 ⟨some 10, false, 0, 0, 0, true, some 1, some 2⟩ 2).loopEnabled = true
    ∧ ¬ ((Transport.seek 0 ⟨some 10, false, 0, 0, 0, true, some 1, some 2⟩ 2).currentSec = 1) := by
  refine ⟨?_, ?_, ?_⟩ <;>
    norm_num [Transport.seek, loopWindow, startAt, max_def, min_def]

/-- C9 amended: with a loop region `[la, lb]` active (`0 ≤ la < lb ≤
duration`), seeking **while playing** to exactly `lb` keeps looping
enabled and the next animation-frame tick wraps the playhead to `la`;
while paused the playhead is parked at `lb` itself (see the
counterexample) and wraps only once playback resumes.  Seeking to any
in-range position strictly before `la` or strictly after `lb` disables
looping and keeps the sought position (it is not clamped into the loop
region), in both the playing and the paused case. -/
theorem c9_seek_loop_amended (dur la lb off st0 cur c p : ℚ) (playing : Bool)
    (h0 : 0 ≤ la) (h1 : la < lb) (h2 : lb ≤ dur)
    (hp0 : 0 ≤ p) (hp1 : p ≤ dur) (hout : p < la ∨ lb < p) :
    (Transport.seek c ⟨some dur, true, off, st0, cur, true, some la, some lb⟩ lb).loopEnabled
      = true
    ∧ (rafTick c
        (Transport.seek c ⟨some dur, true, off, st0, cur, true, some la, some lb⟩ lb)).currentSec
      = la
    ∧ (Transport.seek c ⟨some dur, playing, off, st0, cur, true, some la, some lb⟩ p).loopEnabled
      = false
    ∧ (if playing = true
        then (Transport.seek c ⟨some dur, playing, off, st0, cur, true, some la, some lb⟩ p).offsetSec
        else (Transport.seek c ⟨some dur, playing, off, st0, cur, true, some la, some lb⟩ p).currentSec)
      = p := by
  have hlb0 : 0 ≤ lb := le_trans h0 (le_of_lt h1)
  have hclampB : max 0 (min dur lb) = lb := by
    rw [min_eq_right h2, max_eq_right hlb0]
  have hclampP : max 0 (min dur p) = p := by
    rw [min_eq_right hp1, max_eq_right hp0]
  have hlw : loopWindow ⟨some dur, true, off, st0, cur, true, some la, some lb⟩
      = some (la, lb) := by
    simp [loopWindow, h1]
  have hnotoutB : ¬ (lb < la ∨ lb > lb) := by
    rintro (h | h)
    · exact absurd h (not_lt.mpr (le_of_lt h1))
    · exact lt_irrefl _ h
  have hseekB : Transport.seek c ⟨some dur, true, off, st0, cur, true, some la, some lb⟩ lb
      = ⟨some dur, true, lb, c, cur, true, some la, some lb⟩ := by
    simp only [Transport.seek, hclampB, hlw, if_neg hnotoutB, startAt, hclampB]
    simp
  refine ⟨by rw [hseekB], ?_, ?_, ?_⟩
  · rw [hseekB]
    have hlw' : loopWindow ⟨some dur, true, lb, c, cur, true, some la, some lb⟩
        = some (la, lb) := by
      simp [loopWindow, h1]
    simp only [rafTick, hlw']
    rw [if_neg (by simp)]
    simp only [Option.getD_some, sub_self, zero_add, hclampB]
    rw [if_pos (le_refl lb), jsMod_self (lb - la) (by linarith), add_zero,
      if_neg (lt_irrefl la)]
  all_goals
    have hlwP : loopWindow ⟨some dur, playing, off, st0, cur, true, some la, some lb⟩
        = some (la, lb) := by
      simp [loopWindow, h1]
    have houtP : (p < la ∨ p > lb) := hout
    cases playing with
    | false =>
      simp only [Transport.seek, hclampP, hlwP, if_pos houtP]
      simp [startAt]
    | true =>
      simp only [Transport.seek, hclampP, hlwP, if_pos houtP]
      simp only [if_pos rfl, startAt, loopWindow]
      simp [hclampP]

/-- Witness for C9's amended theorem: loop `[1, 2]`, duration 10,
seeking to `loopEnd = 2` while playing then ticking lands on `1`;
a paused seek to `1/2` (before the loop) disables the loop. -/
theorem c9_seek_loop_amended_witness :
    (rafTick 0 (Transport.seek 0 ⟨some 10, true, 0, 0, 0, true, some 1, some 2⟩ 2)).currentSec = 1
    ∧ (Transport.seek 0 ⟨some 10, false, 0, 0, 0, true, some 1, some 2⟩ (1/2)).loopEnabled
      = false := by
  have h := c9_seek_loop_amended 10 1 2 0 0 0 0 (1/2) false
    (by norm_num) (by norm_num) (by norm_num) (by norm_num) (by norm_num)
    (Or.inl (by norm_num))
  exact ⟨h.2.1, h.2.2.1⟩

end Choreo
